import Mathlib

/-!
Verification of the TQMemory cache core (github.com/mevdschee/tqmemory).

The definitions below are a shallow embedding of the Go sources:
  * `GoError` — the error values of pkg/tqmemory/index.go together with the
    `os.ErrExist` / `os.ErrNotExist` sentinels the text-protocol server
    compares against, and `ErrNotNumeric` used by the current sharded.go.
  * `Index` — the per-shard index (map + LRU list; the expiry heap is kept
    implicitly as the set of entries with `expiry > 0`, which determines the
    sweep's final state).
  * `Worker` — the single-threaded cache worker of worker.go, with the
    handlers `handleGet`, `doSet`, `handleAdd`, `handleReplace`, `handleCas`,
    `handleDelete`, `handleTouch`, `doIncrDecr`, `doAppendPrepend`,
    `handleFlushAll`, `evictLRU` and the background sweep `expireKeys`.
  * `OtterCache` — the current sharded.go implementation (Otter-based), of
    which we embed `doIncrDecr` (the only part a claim depends on).
  * `Server.*` — the response construction of the text protocol codec
    (server/text.go).

Machine integers: Go `uint64` is modelled as `Nat` with an explicit
`% 2 ^ 64` at every point where Go arithmetic can wrap; Go `int64`
(memory accounting, millisecond timestamps) is modelled as `Int`
(its range is never approached by the quantities involved).
Go `[]byte` / `string` values are modelled as `String` with byte length
given by `String.length` (all inputs considered are ASCII).
`time.Now()` is passed explicitly as a millisecond timestamp `now`, and
`time.Duration` TTLs are expressed in milliseconds.
-/

namespace TQMemory

/-- Error values: the five `errors.New` values of index.go, `ErrNotNumeric`
of the current revision, and the distinct `os` sentinels that server/text.go
compares cache errors against. Distinct constructors model distinct Go error
values (pointer identity). -/
inductive GoError where
  | errKeyNotFound
  | errKeyTooLarge
  | errValueTooLarge
  | errKeyExists
  | errCasMismatch
  | errNotNumeric
  | osErrExist
  | osErrNotExist
deriving Repr, DecidableEq

/-- The `Error()` string of each error value. -/
def GoError.message : GoError → String
  | .errKeyNotFound => "key not found"
  | .errKeyTooLarge => "key too large"
  | .errValueTooLarge => "value too large"
  | .errKeyExists => "key already exists"
  | .errCasMismatch => "cas mismatch"
  | .errNotNumeric => "cannot increment or decrement non-numeric value"
  | .osErrExist => "file already exists"
  | .osErrNotExist => "file does not exist"

/-- Go `strconv.ParseUint(s, 10, 64)`: succeeds exactly on a nonempty string
of decimal digits (no sign) whose value fits in 64 bits. -/
def parseUint64 (s : String) : Option Nat :=
  if s.length > 0 ∧ s.data.all (fun c => c.isDigit) then
    let n := s.data.foldl (fun acc c => acc * 10 + (c.toNat - 48)) 0
    if n < 2 ^ 64 then some n else none
  else none

/-- Go `strconv.FormatUint(n, 10)`. -/
def formatUint (n : Nat) : String := toString n

/-- IndexEntry of index.go (the worker revision): key, value, absolute expiry
in Unix milliseconds (0 = no expiry), cas token. -/
structure IndexEntry where
  key : String
  value : String
  expiry : Int
  cas : Nat
deriving Repr, DecidableEq

/-- `len(e.Key) + len(e.Value)`, the memory charged for an entry. -/
def entrySize (e : IndexEntry) : Int :=
  (e.key.length : Int) + e.value.length

/-- The Index of index.go: the key→entry map is an association list with
unique keys, `lru` is the LRU key list (front = least recently used).
The expiry heap contains exactly the keys of entries with `expiry > 0`
(kept in sync by `Set`/`Delete`), so it is represented implicitly. -/
structure Index where
  entries : List IndexEntry
  lru : List String
deriving Repr, DecidableEq

def Index.empty : Index := { entries := [], lru := [] }

/-- Index.Get: map lookup. -/
def Index.get (idx : Index) (key : String) : Option IndexEntry :=
  idx.entries.find? (fun e => e.key == key)

/-- Index.Set: map store (replace or insert) plus LRU move-to-back
(or push-back for a new key). -/
def Index.set (idx : Index) (e : IndexEntry) : Index :=
  { entries :=
      if idx.entries.any (fun x => x.key == e.key) then
        idx.entries.map (fun x => if x.key == e.key then e else x)
      else idx.entries ++ [e],
    lru :=
      if idx.lru.contains e.key then idx.lru.erase e.key ++ [e.key]
      else idx.lru ++ [e.key] }

/-- Index.Delete: remove the entry with the given key (returning it) and drop
the key from the LRU list. -/
def Index.delete (idx : Index) (key : String) : Option IndexEntry × Index :=
  match idx.entries.find? (fun e => e.key == key) with
  | none => (none, idx)
  | some e =>
      (some e,
       { entries := idx.entries.eraseP (fun x => x.key == key),
         lru := idx.lru.erase key })

/-- Index.Touch: LRU move-to-back for a present key. -/
def Index.touch (idx : Index) (key : String) : Index :=
  if idx.lru.contains key then { idx with lru := idx.lru.erase key ++ [key] } else idx

/-- Index.GetOldest: the entry at the LRU front (eviction victim). -/
def Index.getOldest (idx : Index) : Option IndexEntry :=
  match idx.lru.head? with
  | none => none
  | some k => idx.get k

/-- Σ (len(key)+len(value)) over the entries of the index. -/
def Index.sumSizes (idx : Index) : Int :=
  (idx.entries.map entrySize).sum

/-- Response of worker.go: value (nil for non-get results), cas (0 on error),
error (nil on success). -/
structure Response where
  value : Option String := none
  cas : Nat := 0
  err : Option GoError := none
deriving Repr, DecidableEq

/-- Worker of worker.go. `casCounter` is a Go uint64 (seeded from
`time.Now().UnixNano()`); `maxMemory`/`usedMemory` are int64. -/
structure Worker where
  index : Index
  casCounter : Nat
  defaultTTL : Int
  maxMemory : Int
  usedMemory : Int
  evictions : Nat
deriving Repr, DecidableEq

/-- NewWorker: empty index, counter seeded with the process start time
(passed explicitly as `seed`, a uint64). -/
def NewWorker (defaultTTL maxMemory : Int) (seed : Nat) : Worker :=
  { index := Index.empty, casCounter := seed, defaultTTL := defaultTTL,
    maxMemory := maxMemory, usedMemory := 0, evictions := 0 }

/-- The loop of evictLRU: while `usedMemory + needed > maxMemory`, remove the
LRU-oldest entry, subtract its size, count an eviction; stop when under
budget or no entry is left. Each iteration deletes one entry, so the loop
runs at most `entries.length` times; the structural `fuel` argument (set to
`entries.length + 1` at the call site) therefore never reaches 0 before the
loop exits by itself. Returns (index, usedMemory, evictions). -/
def evictLoop (idx : Index) (used maxMem : Int) (ev : Nat) (needed : Int) :
    Nat → Index × Int × Nat
  | 0 => (idx, used, ev)
  | fuel + 1 =>
    if used + needed > maxMem then
      match idx.getOldest with
      | none => (idx, used, ev)
      | some oldest =>
          evictLoop (idx.delete oldest.key).2 (used - entrySize oldest) maxMem
            (ev + 1) needed fuel
    else (idx, used, ev)

/-- evictLRU of worker.go. -/
def Worker.evictLRU (w : Worker) (needed : Int) : Worker :=
  if w.maxMemory = 0 then w
  else
    let r := evictLoop w.index w.usedMemory w.maxMemory w.evictions needed
      (w.index.entries.length + 1)
    { w with index := r.1, usedMemory := r.2.1, evictions := r.2.2 }

/-- doSet of worker.go. `existingCas`/`checkCas` are declared by the source
but unused by its body; they are kept for fidelity. -/
def Worker.doSet (w : Worker) (now : Int) (key value : String) (ttl : Int)
    (existingCas : Nat) (checkCas : Bool) : Worker × Response :=
  let ttl := if ttl = 0 ∧ w.defaultTTL > 0 then w.defaultTTL else ttl
  let expiry : Int := if ttl > 0 then now + ttl else 0
  let size : Int := (key.length : Int) + value.length
  let oldSize : Int :=
    match w.index.get key with
    | some existing => entrySize existing
    | none => 0
  let additionalMemory := size - oldSize
  let w1 := if additionalMemory > 0 ∧ w.maxMemory > 0 then w.evictLRU additionalMemory else w
  let cas := (w1.casCounter + 1) % 2 ^ 64
  let entry : IndexEntry := { key := key, value := value, expiry := expiry, cas := cas }
  ({ w1 with index := w1.index.set entry, casCounter := cas,
             usedMemory := w1.usedMemory + additionalMemory },
   { cas := cas })

/-- handleGet of worker.go: lazy expiry (remove + refund memory) and LRU touch. -/
def Worker.handleGet (w : Worker) (now : Int) (key : String) : Worker × Response :=
  match w.index.get key with
  | none => (w, { err := some .errKeyNotFound })
  | some entry =>
    if entry.expiry > 0 ∧ entry.expiry ≤ now then
      ({ w with usedMemory := w.usedMemory - entrySize entry,
                index := (w.index.delete key).2 },
       { err := some .errKeyNotFound })
    else
      ({ w with index := w.index.touch entry.key },
       { value := some entry.value, cas := entry.cas })

/-- handleSet of worker.go. -/
def Worker.handleSet (w : Worker) (now : Int) (key value : String) (ttl : Int) :
    Worker × Response :=
  w.doSet now key value ttl 0 false

/-- handleAdd of worker.go: fails with ErrKeyExists only when the key is
present and fresh. -/
def Worker.handleAdd (w : Worker) (now : Int) (key value : String) (ttl : Int) :
    Worker × Response :=
  match w.index.get key with
  | some entry =>
    if entry.expiry = 0 ∨ entry.expiry > now then (w, { err := some .errKeyExists })
    else w.doSet now key value ttl 0 false
  | none => w.doSet now key value ttl 0 false

/-- handleReplace of worker.go. -/
def Worker.handleReplace (w : Worker) (now : Int) (key value : String) (ttl : Int) :
    Worker × Response :=
  match w.index.get key with
  | none => (w, { err := some .errKeyNotFound })
  | some entry =>
    if entry.expiry > 0 ∧ entry.expiry ≤ now then (w, { err := some .errKeyNotFound })
    else w.doSet now key value ttl 0 false

/-- handleCas of worker.go. -/
def Worker.handleCas (w : Worker) (now : Int) (key value : String) (ttl : Int)
    (casTok : Nat) : Worker × Response :=
  match w.index.get key with
  | none => (w, { err := some .errKeyNotFound })
  | some entry =>
    if entry.expiry > 0 ∧ entry.expiry ≤ now then (w, { err := some .errKeyNotFound })
    else if entry.cas ≠ casTok then (w, { err := some .errCasMismatch })
    else w.doSet now key value ttl casTok true

/-- handleDelete of worker.go. -/
def Worker.handleDelete (w : Worker) (key : String) : Worker × Response :=
  match w.index.delete key with
  | (none, _) => (w, { err := some .errKeyNotFound })
  | (some entry, idx) =>
      ({ w with index := idx, usedMemory := w.usedMemory - entrySize entry }, {})

/-- handleTouch of worker.go: new expiry, new cas, LRU touch; value and
memory accounting unchanged. -/
def Worker.handleTouch (w : Worker) (now : Int) (key : String) (ttl : Int) :
    Worker × Response :=
  match w.index.get key with
  | none => (w, { err := some .errKeyNotFound })
  | some entry =>
    if entry.expiry > 0 ∧ entry.expiry ≤ now then (w, { err := some .errKeyNotFound })
    else
      let ttl1 := if ttl = 0 ∧ w.defaultTTL > 0 then w.defaultTTL else ttl
      let expiry : Int := if ttl1 > 0 then now + ttl1 else 0
      let cas := (w.casCounter + 1) % 2 ^ 64
      let entry1 := { entry with cas := cas, expiry := expiry }
      ({ w with index := (w.index.set entry1).touch entry1.key, casCounter := cas },
       { cas := cas })

/-- doIncrDecr of worker.go: a value that does not parse as uint64 is treated
as 0 (`current = 0` on parse error); incr adds with uint64 wrap-around, decr
floors at 0; expiry is preserved, a new cas is minted. -/
def Worker.doIncrDecr (w : Worker) (now : Int) (key : String) (delta : Nat)
    (incr : Bool) : Worker × Response :=
  match w.index.get key with
  | none => (w, { err := some .errKeyNotFound })
  | some entry =>
    if entry.expiry > 0 ∧ entry.expiry ≤ now then (w, { err := some .errKeyNotFound })
    else
      let current := (parseUint64 entry.value).getD 0
      let newVal : Nat :=
        if incr then (current + delta) % 2 ^ 64
        else if delta > current then 0 else current - delta
      let oldSize : Int := entry.value.length
      let newValStr := formatUint newVal
      let newSize : Int := newValStr.length
      let cas := (w.casCounter + 1) % 2 ^ 64
      let entry1 := { entry with value := newValStr, cas := cas }
      ({ w with index := (w.index.set entry1).touch entry1.key, casCounter := cas,
                usedMemory := w.usedMemory + (newSize - oldSize) },
       { value := some newValStr, cas := cas })

/-- doAppendPrepend of worker.go: concatenate, evict for the added bytes,
new cas, expiry preserved. -/
def Worker.doAppendPrepend (w : Worker) (now : Int) (key value : String)
    (prepend : Bool) : Worker × Response :=
  match w.index.get key with
  | none => (w, { err := some .errKeyNotFound })
  | some entry =>
    if entry.expiry > 0 ∧ entry.expiry ≤ now then (w, { err := some .errKeyNotFound })
    else
      let additionalMemory : Int := value.length
      let w1 := if w.maxMemory > 0 ∧ additionalMemory > 0 then w.evictLRU additionalMemory else w
      let newValue := if prepend then value ++ entry.value else entry.value ++ value
      let cas := (w1.casCounter + 1) % 2 ^ 64
      let entry1 := { entry with value := newValue, cas := cas }
      ({ w1 with index := (w1.index.set entry1).touch entry1.key, casCounter := cas,
                 usedMemory := w1.usedMemory + additionalMemory },
       { cas := cas })

/-- handleFlushAll of worker.go: fresh empty index, usedMemory reset to 0. -/
def Worker.handleFlushAll (w : Worker) : Worker × Response :=
  ({ w with index := Index.empty, usedMemory := 0 }, {})

/-- expireKeys of worker.go (the 100 ms background sweep): pop the expiry-heap
root while its deadline has passed, deleting the entry and refunding memory.
The heap holds exactly the entries with `expiry > 0`, so the resulting state
removes every entry with `0 < expiry ≤ now` and refunds each of their sizes
(the pop order does not affect the final state). -/
def Worker.expireKeys (w : Worker) (now : Int) : Worker :=
  let isExp : IndexEntry → Bool := fun e => decide (0 < e.expiry) && decide (e.expiry ≤ now)
  let removed := w.index.entries.filter isExp
  { w with
    index := { entries := w.index.entries.filter (fun e => !(isExp e)),
               lru := w.index.lru.filter (fun k => !((removed.map (·.key)).contains k)) },
    usedMemory := w.usedMemory - (removed.map entrySize).sum }

/-- A cache request (handleRequest dispatch of worker.go). -/
inductive Req where
  | get (key : String)
  | set (key value : String) (ttl : Int)
  | add (key value : String) (ttl : Int)
  | replace (key value : String) (ttl : Int)
  | cas (key value : String) (ttl : Int) (casTok : Nat)
  | delete (key : String)
  | touch (key : String) (ttl : Int)
  | incr (key : String) (delta : Nat)
  | decr (key : String) (delta : Nat)
  | append (key value : String)
  | prepend (key value : String)
  | flushAll
deriving Repr, DecidableEq

/-- handleRequest of worker.go, with the wall clock passed explicitly. -/
def Worker.step (w : Worker) (now : Int) (r : Req) : Worker × Response :=
  match r with
  | .get key => w.handleGet now key
  | .set key value ttl => w.handleSet now key value ttl
  | .add key value ttl => w.handleAdd now key value ttl
  | .replace key value ttl => w.handleReplace now key value ttl
  | .cas key value ttl casTok => w.handleCas now key value ttl casTok
  | .delete key => w.handleDelete key
  | .touch key ttl => w.handleTouch now key ttl
  | .incr key delta => w.doIncrDecr now key delta true
  | .decr key delta => w.doIncrDecr now key delta false
  | .append key value => w.doAppendPrepend now key value false
  | .prepend key value => w.doAppendPrepend now key value true
  | .flushAll => w.handleFlushAll

/-- Run a sequence of timestamped requests through one worker, collecting the
responses in order. -/
def runTrace (w : Worker) : List (Int × Req) → List Response × Worker
  | [] => ([], w)
  | (now, r) :: rest =>
    let s := w.step now r
    let t := runTrace s.1 rest
    (s.2 :: t.1, t.2)

/-- The key a request addresses (none for flushAll). -/
def Req.key? : Req → Option String
  | .get key => some key
  | .set key _ _ => some key
  | .add key _ _ => some key
  | .replace key _ _ => some key
  | .cas key _ _ _ => some key
  | .delete key => some key
  | .touch key _ => some key
  | .incr key _ => some key
  | .decr key _ => some key
  | .append key _ => some key
  | .prepend key _ => some key
  | .flushAll => none

/-- Requests that mint a fresh cas on success
(Set/Add/Replace/Cas/Touch/Incr/Decr/Append/Prepend). -/
def Req.isMutation : Req → Bool
  | .set _ _ _ => true
  | .add _ _ _ => true
  | .replace _ _ _ => true
  | .cas _ _ _ _ => true
  | .touch _ _ => true
  | .incr _ _ => true
  | .decr _ _ => true
  | .append _ _ => true
  | .prepend _ _ => true
  | _ => false

/-- Invariant: every stored cas was minted from the shard's counter, hence is
bounded by it. -/
def Worker.casBound (w : Worker) : Prop :=
  ∀ e ∈ w.index.entries, e.cas ≤ w.casCounter

/-- CacheEntry of the current sharded.go (Otter-based revision). -/
structure CacheEntry where
  value : String
  cas : Nat
  expiry : Int
deriving Repr, DecidableEq

/-- The current sharded.go ShardedCache: a single map with an atomic cas
counter (sharding replaced by the Otter cache). Only the state visible to
the embedded operations is modelled. -/
structure OtterCache where
  data : List (String × CacheEntry)
  casCounter : Nat
  defaultTTL : Int
deriving Repr, DecidableEq

/-- cache.GetIfPresent. -/
def OtterCache.getIfPresent (sc : OtterCache) (key : String) : Option CacheEntry :=
  (sc.data.find? (fun p => p.1 == key)).map (·.2)

/-- isExpired of sharded.go. -/
def isExpired (now : Int) (e : CacheEntry) : Bool :=
  decide (e.expiry > 0) && decide (e.expiry ≤ now)

/-- Map store (replace or insert) for the Otter cache. -/
def OtterCache.store (sc : OtterCache) (key : String) (e : CacheEntry) : OtterCache :=
  if sc.data.any (fun p => p.1 == key) then
    { sc with data := sc.data.map (fun p => if p.1 == key then (key, e) else p) }
  else
    { sc with data := sc.data ++ [(key, e)] }

/-- doIncrDecr of the current sharded.go: inside `Compute`, a missing or
expired key cancels with ErrKeyNotFound; a value that does not parse as
uint64 cancels with ErrNotNumeric (no state change); otherwise the new value
is written with the expiry preserved and a fresh cas. Returns
(cache, resultVal, resultCas, err). -/
def OtterCache.doIncrDecr (sc : OtterCache) (now : Int) (key : String) (delta : Nat)
    (incr : Bool) : OtterCache × Nat × Nat × Option GoError :=
  match sc.getIfPresent key with
  | none => (sc, 0, 0, some .errKeyNotFound)
  | some oldEntry =>
    if isExpired now oldEntry then (sc, 0, 0, some .errKeyNotFound)
    else
      match parseUint64 oldEntry.value with
      | none => (sc, 0, 0, some .errNotNumeric)
      | some current =>
        let resultVal : Nat :=
          if incr then (current + delta) % 2 ^ 64
          else if delta > current then 0 else current - delta
        let resultCas := (sc.casCounter + 1) % 2 ^ 64
        let entry1 : CacheEntry :=
          { value := formatUint resultVal, cas := resultCas, expiry := oldEntry.expiry }
        ({ sc.store key entry1 with casCounter := resultCas }, resultVal, resultCas, none)

/-- TTL computation shared by the text-protocol handlers: `exptime ≤ 0` means
no TTL, `1..2592000` is seconds relative to now, larger values are absolute
Unix seconds (`time.Until(time.Unix(exptime, 0))`). Result in milliseconds. -/
def computeTTL (now exptime : Int) : Int :=
  if exptime > 0 then
    if exptime > 2592000 then exptime * 1000 - now else exptime * 1000
  else 0

/-- Response line written by handleTextStorage (server/text.go) after the
cache call: NOT_STORED only when the error is the `os` sentinel the code
compares against, SERVER_ERROR with the error text otherwise, STORED on
success (suppressed by noreply). -/
def textStorageResponse (err : Option GoError) (noreply : Bool) : String :=
  match err with
  | some e =>
    if e = .osErrExist ∨ e = .osErrNotExist then (if noreply then "" else "NOT_STORED\r\n")
    else "SERVER_ERROR " ++ e.message ++ "\r\n"
  | none => if noreply then "" else "STORED\r\n"

/-- Storage verbs dispatched by handleTextStorage. -/
inductive StorageOp where
  | set
  | add
  | replace
deriving Repr, DecidableEq

/-- handleTextStorage of server/text.go for a well-formed command line:
`<op> <key> <flags> <exptime> <bytes>[ noreply]` followed by the payload.
The flags token (`parts[2]`) is received but never read by the source, hence
the unused `flags` parameter. Returns the updated worker and the bytes
written to the client. -/
def Server.handleTextStorage (w : Worker) (now : Int) (op : StorageOp)
    (key : String) (flags : String) (exptime : Int) (value : String)
    (noreply : Bool) : Worker × String :=
  let ttl := computeTTL now exptime
  let r :=
    match op with
    | .set => w.handleSet now key value ttl
    | .add => w.handleAdd now key value ttl
    | .replace => w.handleReplace now key value ttl
  (r.1, textStorageResponse r.2.err noreply)

/-- Response line written by handleTextCas (server/text.go) after the cache
call: EXISTS / NOT_FOUND only for the `os` sentinels the code compares
against, SERVER_ERROR with the error text otherwise, STORED on success. -/
def textCasResponse (err : Option GoError) (noreply : Bool) : String :=
  match err with
  | some e =>
    if e = .osErrExist then (if noreply then "" else "EXISTS\r\n")
    else if e = .osErrNotExist then (if noreply then "" else "NOT_FOUND\r\n")
    else "SERVER_ERROR " ++ e.message ++ "\r\n"
  | none => if noreply then "" else "STORED\r\n"

/-- handleTextCas of server/text.go for a well-formed command line
`cas <key> <flags> <exptime> <bytes> <cas>[ noreply]`. -/
def Server.handleTextCas (w : Worker) (now : Int) (key : String) (exptime : Int)
    (value : String) (casToken : Nat) (noreply : Bool) : Worker × String :=
  let ttl := computeTTL now exptime
  let r := w.handleCas now key value ttl casToken
  (r.1, textCasResponse r.2.err noreply)

/-- One VALUE block of handleTextGet (server/text.go): on a cache hit the
line is `VALUE <key> 0 <bytes>[ <cas>]` — the flags field is the literal
string "0" — followed by the data; on a miss nothing is written. -/
def Server.textGetValueBlock (w : Worker) (now : Int) (key : String)
    (withCas : Bool) : Worker × String :=
  let r := w.handleGet now key
  match r.2.err, r.2.value with
  | none, some v =>
    (r.1, "VALUE " ++ key ++ " 0 " ++ toString v.length ++
          (if withCas then " " ++ toString r.2.cas else "") ++ "\r\n" ++ v ++ "\r\n")
  | _, _ => (r.1, "")

/-- handleTextGet of server/text.go: one VALUE block per hit, then END. -/
def Server.handleTextGet (w : Worker) (now : Int) (keys : List String)
    (withCas : Bool) : Worker × String :=
  let r := keys.foldl
    (fun (acc : Worker × String) k =>
      let b := Server.textGetValueBlock acc.1 now k withCas
      (b.1, acc.2 ++ b.2))
    (w, "")
  (r.1, r.2 ++ "END\r\n")

/-- Response written by handleTextIncrDecr (server/text.go) after the cache
call: NOT_FOUND only for the `os.ErrNotExist` sentinel, CLIENT_ERROR with the
error text otherwise, the new numeric value on success. -/
def textIncrDecrResponse (newVal : Nat) (err : Option GoError) (noreply : Bool) : String :=
  match err with
  | some e =>
    if e = .osErrNotExist then (if noreply then "" else "NOT_FOUND\r\n")
    else "CLIENT_ERROR " ++ e.message ++ "\r\n"
  | none => if noreply then "" else formatUint newVal ++ "\r\n"

/-- handleTextIncrDecr of server/text.go over the current sharded.go cache:
parse the delta with ParseUint, call Increment/Decrement, write the response. -/
def Server.handleTextIncrDecr (sc : OtterCache) (now : Int) (key deltaStr : String)
    (incr noreply : Bool) : OtterCache × String :=
  match parseUint64 deltaStr with
  | none => (sc, "CLIENT_ERROR invalid numeric delta argument\r\n")
  | some delta =>
    let r := sc.doIncrDecr now key delta incr
    (r.1, textIncrDecrResponse r.2.1 r.2.2.2 noreply)

/-! Concrete states and traces used to evaluate the code at specific inputs. -/

/-- A 251-byte key (one byte over the documented limit). -/
def key251 : String := String.mk (List.replicate 251 'a')

/-- Two Sets of the same key under a 10-byte budget: the second Set evicts
the key being overwritten and then double-subtracts its size. -/
def accountingTrace : List (Int × Req) :=
  [(0, .set "k" "12345678" 0), (0, .set "k" "12345678901" 0)]

/-- Fill an 8-byte budget exactly, then grow a value by Incr (which never
evicts). -/
def incrBudgetTrace : List (Int × Req) :=
  [(0, .set "a" "9999" 0), (0, .set "b" "99" 0), (0, .incr "a" 1)]

/-- A worker holding one hard-expired entry (expiry 5, observed at now = 10). -/
def expiredWorker : Worker :=
  { NewWorker 0 0 0 with
    index := { entries := [{ key := "k", value := "v", expiry := 5, cas := 1 }],
               lru := ["k"] },
    usedMemory := 2 }

/-- A worker holding one fresh entry with cas 7 and value "A" (scenario S2). -/
def casWorker : Worker :=
  { NewWorker 0 0 10 with
    index := { entries := [{ key := "k", value := "A", expiry := 0, cas := 7 }],
               lru := ["k"] },
    usedMemory := 2 }

/-- A worker holding the maximal uint64 value as a decimal string. -/
def maxUintWorker : Worker :=
  { NewWorker 0 0 5 with
    index := { entries := [{ key := "k", value := "18446744073709551615",
                             expiry := 0, cas := 3 }],
               lru := ["k"] },
    usedMemory := 21 }

/-- A worker holding one fresh numeric entry. -/
def numericWorker : Worker :=
  { NewWorker 0 0 5 with
    index := { entries := [{ key := "k", value := "10", expiry := 0, cas := 3 }],
               lru := ["k"] },
    usedMemory := 3 }

/-- An Otter cache holding a non-numeric value. -/
def nonNumericCache : OtterCache :=
  { data := [("k", { value := "abc", cas := 9, expiry := 0 })],
    casCounter := 9, defaultTTL := 0 }

/-- Two Sets of one key starting from a cas counter two below the uint64
wrap-around point. -/
def wrapTrace : List (Int × Req) :=
  [(0, .set "k" "v" 0), (0, .set "k" "w" 0)]

/-- The behaviour of the worker's handlers on a hard-expired entry `e` stored
under `key`: Get reports NotFound and additionally removes the entry and
refunds its memory; Replace, Cas, Touch, Incr, Decr, Append and Prepend
report NotFound and leave the worker completely unchanged (no removal, no
refund); Add treats the key as absent and succeeds, replacing the expired
entry with the new value. -/
def HardExpiredBehavior (w : Worker) (now : Int) (key v2 : String) (ttl : Int)
    (tok delta : Nat) (e : IndexEntry) : Prop :=
  ((w.handleGet now key).2.err = some .errKeyNotFound ∧
   (w.handleGet now key).1.usedMemory = w.usedMemory - entrySize e ∧
   (w.handleGet now key).1.index = (w.index.delete key).2) ∧
  (w.handleReplace now key v2 ttl = (w, { err := some .errKeyNotFound }) ∧
   w.handleCas now key v2 ttl tok = (w, { err := some .errKeyNotFound }) ∧
   w.handleTouch now key ttl = (w, { err := some .errKeyNotFound }) ∧
   w.doIncrDecr now key delta true = (w, { err := some .errKeyNotFound }) ∧
   w.doIncrDecr now key delta false = (w, { err := some .errKeyNotFound }) ∧
   w.doAppendPrepend now key v2 false = (w, { err := some .errKeyNotFound }) ∧
   w.doAppendPrepend now key v2 true = (w, { err := some .errKeyNotFound })) ∧
  ((w.handleAdd now key v2 ttl).2.err = none ∧
   ((w.handleAdd now key v2 ttl).1.index.get key).map (fun x => x.value) = some v2)

/-- Observation contract of one request: the counter never decreases (and
grows by at most one), every stored cas stays bounded by the counter, and
the cas reported in the response is bounded by the post-state counter. -/
def CasObs (w : Worker) (s : Worker × Response) : Prop :=
  w.casCounter ≤ s.1.casCounter ∧
  s.1.casCounter ≤ w.casCounter + 1 ∧
  Worker.casBound s.1 ∧
  s.2.cas ≤ s.1.casCounter

/-- Minting contract of a successful mutation: the response carries exactly
the incremented counter. -/
def CasMint (w : Worker) (s : Worker × Response) : Prop :=
  s.2.err = none → s.2.cas = w.casCounter + 1 ∧ s.1.casCounter = w.casCounter + 1

/-- The memory-budget contract of the write operations: Set (doSet) never
fails and leaves the shard within budget unless the budget is disabled, the
written entry alone exceeds it, or the write did not grow usedMemory;
Append/Prepend fail only with KeyNotFound (never because of the budget) and
satisfy the same bound with the concatenated entry as the oversize witness;
Add/Replace/Cas either perform their write through doSet or leave the worker
unchanged. -/
def WriteBudgetBound (w : Worker) (now : Int) (key value : String) (ttl : Int)
    (tok : Nat) : Prop :=
  ((w.doSet now key value ttl 0 false).2.err = none ∧
   (w.maxMemory = 0 ∨
    (w.doSet now key value ttl 0 false).1.usedMemory ≤ w.maxMemory ∨
    ((key.length : Int) + value.length > w.maxMemory) ∨
    (w.doSet now key value ttl 0 false).1.usedMemory ≤ w.usedMemory)) ∧
  (∀ b : Bool,
    ((w.doAppendPrepend now key value b).2.err = none ∨
     (w.doAppendPrepend now key value b).2.err = some .errKeyNotFound) ∧
    (w.maxMemory = 0 ∨
     (w.doAppendPrepend now key value b).1.usedMemory ≤ w.maxMemory ∨
     (∃ e, w.index.get key = some e ∧
        (key.length : Int) + e.value.length + value.length > w.maxMemory) ∨
     (w.doAppendPrepend now key value b).1.usedMemory ≤ w.usedMemory)) ∧
  (w.handleAdd now key value ttl = w.doSet now key value ttl 0 false ∨
   (w.handleAdd now key value ttl).1 = w) ∧
  (w.handleReplace now key value ttl = w.doSet now key value ttl 0 false ∨
   (w.handleReplace now key value ttl).1 = w) ∧
  (w.handleCas now key value ttl tok = w.doSet now key value ttl tok true ∨
   (w.handleCas now key value ttl tok).1 = w)

/-! Helper lemmas about the Index operations. -/

theorem Index.get_key {idx : Index} {key : String} {e : IndexEntry}
    (h : idx.get key = some e) : e.key = key := by
  have := List.find?_some h
  simpa using this

theorem Index.get_mem {idx : Index} {key : String} {e : IndexEntry}
    (h : idx.get key = some e) : e ∈ idx.entries :=
  List.mem_of_find?_eq_some h

theorem find?_map_overwrite (e : IndexEntry) :
    ∀ l : List IndexEntry, l.any (fun x => x.key == e.key) = true →
      (l.map (fun x => if x.key == e.key then e else x)).find?
        (fun x => x.key == e.key) = some e
  | [], h => by simp at h
  | a :: l, h => by
    by_cases ha : (a.key == e.key) = true
    · have h1 : (if (a.key == e.key) = true then e else a) = e := if_pos ha
      simp only [List.map_cons, h1]
      exact List.find?_cons_of_pos _ (by simp)
    · have h2 : (if (a.key == e.key) = true then e else a) = a := if_neg ha
      have hl : l.any (fun x => x.key == e.key) = true := by
        rw [List.any_cons] at h
        rcases Bool.or_eq_true_iff.mp h with h | h
        · exact absurd h ha
        · exact h
      have haf : (a.key == e.key) = false := by simpa using ha
      rw [List.map_cons, h2]
      simp only [List.find?_cons, haf]
      exact find?_map_overwrite e l hl

theorem find?_append_new (e : IndexEntry) :
    ∀ l : List IndexEntry, l.any (fun x => x.key == e.key) = false →
      (l ++ [e]).find? (fun x => x.key == e.key) = some e
  | [], _ => by simp [List.find?_cons]
  | a :: l, h => by
    cases hpa : (a.key == e.key) with
    | true => rw [List.any_cons, hpa] at h; simp at h
    | false =>
      simp only [List.cons_append, List.find?_cons, hpa]
      refine find?_append_new e l ?_
      rw [List.any_cons, hpa] at h
      simpa using h

theorem Index.get_set_self (idx : Index) (e : IndexEntry) :
    (idx.set e).get e.key = some e := by
  unfold Index.set Index.get
  cases h : idx.entries.any (fun x => x.key == e.key) with
  | true => simpa [h] using find?_map_overwrite e idx.entries h
  | false => simpa [h] using find?_append_new e idx.entries h

theorem Index.touch_entries (idx : Index) (key : String) :
    (idx.touch key).entries = idx.entries := by
  unfold Index.touch
  split <;> rfl

theorem Index.get_touch (idx : Index) (key k : String) :
    (idx.touch key).get k = idx.get k := by
  unfold Index.get
  rw [Index.touch_entries]

theorem Worker.doSet_err (w : Worker) (now : Int) (key value : String) (ttl : Int)
    (existingCas : Nat) (checkCas : Bool) :
    (w.doSet now key value ttl existingCas checkCas).2.err = none := rfl

theorem Worker.doSet_get_self (w : Worker) (now : Int) (key value : String) (ttl : Int)
    (ec : Nat) (cc : Bool) :
    ∃ en : IndexEntry, (w.doSet now key value ttl ec cc).1.index.get key = some en ∧
      en.key = key ∧ en.value = value := by
  unfold Worker.doSet
  exact ⟨_, Index.get_set_self _ _, rfl, rfl⟩

theorem Worker.handleAdd_cases (w : Worker) (now : Int) (key value : String) (ttl : Int) :
    w.handleAdd now key value ttl = w.doSet now key value ttl 0 false ∨
    w.handleAdd now key value ttl = (w, { err := some .errKeyExists }) := by
  unfold Worker.handleAdd
  rcases hg : w.index.get key with _ | e
  · exact Or.inl rfl
  · by_cases hc : e.expiry = 0 ∨ e.expiry > now
    · right
      simp [hc]
    · left
      simp [hc]

theorem Worker.handleReplace_cases (w : Worker) (now : Int) (key value : String) (ttl : Int) :
    w.handleReplace now key value ttl = w.doSet now key value ttl 0 false ∨
    w.handleReplace now key value ttl = (w, { err := some .errKeyNotFound }) := by
  unfold Worker.handleReplace
  rcases hg : w.index.get key with _ | e
  · exact Or.inr rfl
  · by_cases hc : e.expiry > 0 ∧ e.expiry ≤ now
    · right
      simp [hc]
    · left
      simp [hc]

theorem Worker.handleCas_cases (w : Worker) (now : Int) (key value : String) (ttl : Int)
    (tok : Nat) :
    w.handleCas now key value ttl tok = w.doSet now key value ttl tok true ∨
    w.handleCas now key value ttl tok = (w, { err := some .errKeyNotFound }) ∨
    w.handleCas now key value ttl tok = (w, { err := some .errCasMismatch }) := by
  unfold Worker.handleCas
  rcases hg : w.index.get key with _ | e
  · exact Or.inr (Or.inl rfl)
  · by_cases hc : e.expiry > 0 ∧ e.expiry ≤ now
    · exact Or.inr (Or.inl (by simp [hc]))
    · by_cases hcas : e.cas ≠ tok
      · exact Or.inr (Or.inr (by simp [hc, hcas]))
      · exact Or.inl (by simp [hc, hcas])

theorem evictLoop_empty (used maxMem : Int) (ev : Nat) (needed : Int) (fuel : Nat) :
    evictLoop Index.empty used maxMem ev needed fuel = (Index.empty, used, ev) := by
  cases fuel with
  | zero => rfl
  | succ f =>
    unfold evictLoop
    split
    · rfl
    · rfl

theorem Worker.evictLRU_newWorker (dttl mm needed : Int) (seed : Nat) :
    (NewWorker dttl mm seed).evictLRU needed = NewWorker dttl mm seed := by
  unfold Worker.evictLRU
  split
  · rfl
  · show ({ NewWorker dttl mm seed with
      index := (evictLoop Index.empty 0 mm 0 needed 1).1,
      usedMemory := (evictLoop Index.empty 0 mm 0 needed 1).2.1,
      evictions := (evictLoop Index.empty 0 mm 0 needed 1).2.2 } : Worker)
      = NewWorker dttl mm seed
    rw [evictLoop_empty]
    rfl

/-! Theorems settling the claims. -/

set_option maxRecDepth 8000

/-- C1: the spec requires every write to reject keys longer than 250 bytes
with KeyTooLarge before touching the cache, but the code performs no size
check at all (ErrKeyTooLarge / ErrValueTooLarge are declared in index.go and
never returned): evaluating Set at a 251-byte key shows the write succeeds
and the entry is stored. -/
theorem set_oversizedKey_succeeds :
    key251.length = 251 ∧
    ((NewWorker 0 0 0).handleSet 0 key251 "v" 0).2.err = none ∧
    (((NewWorker 0 0 0).handleSet 0 key251 "v" 0).1.index.get key251).isSome = true := by
  refine ⟨by decide, rfl, by decide⟩

/-- C3: the used_bytes invariant `used_bytes = Σ(len(key)+len(value))` is
broken when eviction removes the very key being overwritten: with
max_bytes = 10, after `Set k "12345678"` then `Set k "12345678901"` the
worker reports usedMemory = 3 while the entries sum to 12 (doSet subtracts
the old size once via eviction and once via `additionalMemory`). -/
theorem usedMemory_accounting_violated :
    (runTrace (NewWorker 0 10 0) accountingTrace).2.usedMemory = 3 ∧
    (runTrace (NewWorker 0 10 0) accountingTrace).2.index.sumSizes = 12 ∧
    (3 : Int) ≠ 12 := by
  refine ⟨by decide, by decide, by decide⟩

/-- C6: on a cas with a stale token for a present fresh key, the cache
correctly reports ErrCasMismatch and leaves the value unchanged, but
handleTextCas compares the error against `os.ErrExist` (which the cache
never returns), so the client receives `SERVER_ERROR cas mismatch` instead
of the claimed `EXISTS` (evaluated at scenario S2: stored cas 7, token 8). -/
theorem textCas_mismatch_response :
    (Server.handleTextCas casWorker 0 "k" 0 "B" 8 false).2 = "SERVER_ERROR cas mismatch\r\n" ∧
    (Server.handleTextCas casWorker 0 "k" 0 "B" 8 false).2 ≠ "EXISTS\r\n" ∧
    (Server.handleTextCas casWorker 0 "k" 0 "B" 8 false).1.index.get "k" =
      some { key := "k", value := "A", expiry := 0, cas := 7 } := by
  refine ⟨by decide, by decide, by decide⟩

/-- C9 counterexample: storing with flags token "5" and reading the key back
yields a VALUE line whose flags field is 0, not the stored flags — the
response differs from the one the claim requires. -/
theorem flags_not_echoed :
    (Server.handleTextGet
      (Server.handleTextStorage (NewWorker 0 0 0) 0 .set "k" "5" 0 "hello" false).1
      0 ["k"] false).2 = "VALUE k 0 5\r\nhello\r\nEND\r\n" ∧
    "VALUE k 0 5\r\nhello\r\nEND\r\n" ≠ "VALUE k 5 5\r\nhello\r\nEND\r\n" := by
  refine ⟨by decide, by decide⟩

/-- C9 (amended): flags are not stored anywhere (the data model has no flags
field and handleTextStorage never reads the flags token), and handleTextGet
prints the literal "0" in the flags position: for every flags token and every
key/value, the get after the store reports flags 0. -/
theorem textGet_flags_always_zero (mm : Int) (seed : Nat) (key flags value : String)
    (withCas : Bool) :
    (Server.textGetValueBlock
      (Server.handleTextStorage (NewWorker 0 mm seed) 0 .set key flags 0 value false).1
      0 key withCas).2 =
    "VALUE " ++ key ++ " 0 " ++ toString value.length ++
      (if withCas then " " ++ toString ((seed + 1) % 2 ^ 64) else "") ++
      "\r\n" ++ value ++ "\r\n" := by
  have hwset : (Server.handleTextStorage (NewWorker 0 mm seed) 0 .set key flags 0 value false).1
      = { index := { entries := [{ key := key, value := value, expiry := 0,
                                   cas := (seed + 1) % 2 ^ 64 }], lru := [key] },
          casCounter := (seed + 1) % 2 ^ 64, defaultTTL := 0, maxMemory := mm,
          usedMemory := (key.length : Int) + value.length, evictions := 0 } := by
    unfold Server.handleTextStorage computeTTL Worker.handleSet Worker.doSet
    simp only [Worker.evictLRU_newWorker]
    split
    · simp [NewWorker, Index.set, Index.get, Index.empty]
    · simp [NewWorker, Index.set, Index.get, Index.empty]
  unfold Server.textGetValueBlock Worker.handleGet
  rw [hwset]
  simp [Index.get, Index.touch]

theorem entrySize_nonneg (e : IndexEntry) : 0 ≤ entrySize e := by
  unfold entrySize
  omega

theorem sum_eraseP_of_find? (p : IndexEntry → Bool) :
    ∀ (l : List IndexEntry) (e : IndexEntry), l.find? p = some e →
      ((l.eraseP p).map entrySize).sum = (l.map entrySize).sum - entrySize e
  | [], e, h => by simp at h
  | a :: l, e, h => by
    cases hpa : p a with
    | true =>
      rw [List.find?_cons_of_pos _ hpa] at h
      cases h
      rw [List.eraseP_cons_of_pos hpa]
      simp only [List.map_cons, List.sum_cons]
      omega
    | false =>
      rw [List.find?_cons_of_neg _ (by simp [hpa])] at h
      rw [List.eraseP_cons_of_neg (by simp [hpa])]
      simp only [List.map_cons, List.sum_cons]
      have := sum_eraseP_of_find? p l e h
      omega

theorem Index.delete_spec {idx : Index} {k : String} {e : IndexEntry}
    (h : idx.get k = some e) :
    (idx.delete k).2.entries = idx.entries.eraseP (fun x => x.key == k) ∧
    (idx.delete k).2.lru = idx.lru.erase k := by
  unfold Index.get at h
  unfold Index.delete
  simp [h]

theorem Index.delete_sumSizes {idx : Index} {k : String} {e : IndexEntry}
    (h : idx.get k = some e) :
    (idx.delete k).2.sumSizes = idx.sumSizes - entrySize e := by
  obtain ⟨he, _⟩ := Index.delete_spec h
  unfold Index.sumSizes
  rw [he]
  exact sum_eraseP_of_find? _ idx.entries e h

theorem Index.delete_length {idx : Index} {k : String} {e : IndexEntry}
    (h : idx.get k = some e) :
    (idx.delete k).2.entries.length + 1 = idx.entries.length := by
  obtain ⟨he, _⟩ := Index.delete_spec h
  rw [he]
  have hmem : e ∈ idx.entries := Index.get_mem h
  have hpe : (fun x => x.key == k) e = true := by
    simp [Index.get_key h]
  rw [List.length_eraseP_of_mem hmem hpe]
  have : 0 < idx.entries.length := List.length_pos.mpr (List.ne_nil_of_mem hmem)
  omega

theorem Index.delete_perm {idx : Index} {k : String} {e : IndexEntry}
    (h : idx.get k = some e)
    (hp : idx.lru.Perm (idx.entries.map (fun x => x.key))) :
    (idx.delete k).2.lru.Perm ((idx.delete k).2.entries.map (fun x => x.key)) := by
  obtain ⟨he, hl⟩ := Index.delete_spec h
  rw [he, hl]
  have h2 : (idx.entries.eraseP (fun x => x.key == k)).map (fun x => x.key)
      = (idx.entries.map (fun x => x.key)).erase k := by
    rw [List.erase_eq_eraseP', List.eraseP_map]
    rfl
  rw [h2]
  exact hp.erase k

theorem Index.getOldest_get {idx : Index} {old : IndexEntry}
    (h : idx.getOldest = some old) : idx.get old.key = some old := by
  unfold Index.getOldest at h
  rcases hh : idx.lru.head? with _ | k
  · rw [hh] at h; cases h
  · rw [hh] at h
    rw [Index.get_key h]
    exact h

theorem Index.getOldest_none {idx : Index}
    (hp : idx.lru.Perm (idx.entries.map (fun x => x.key)))
    (h : idx.getOldest = none) : idx.entries = [] := by
  unfold Index.getOldest at h
  rcases hh : idx.lru.head? with _ | k
  · have hl : idx.lru = [] := List.head?_eq_none_iff.mp hh
    rw [hl] at hp
    have hm : idx.entries.map (fun x => x.key) = [] := hp.nil_eq.symm
    exact List.map_eq_nil_iff.mp hm
  · rw [hh] at h
    exfalso
    obtain ⟨ys, hys⟩ := List.head?_eq_some_iff.mp hh
    have hk : k ∈ idx.lru := by rw [hys]; exact List.mem_cons_self _ _
    have hk2 : k ∈ idx.entries.map (fun x => x.key) := hp.mem_iff.mp hk
    obtain ⟨x, hx, hxk⟩ := List.mem_map.mp hk2
    unfold Index.get at h
    have := List.find?_eq_none.mp h x hx
    simp [hxk] at this

theorem Index.sumSizes_of_nil {idx : Index} (h : idx.entries = []) :
    idx.sumSizes = 0 := by
  unfold Index.sumSizes
  rw [h]
  rfl

/-- The eviction loop either reaches `used + needed ≤ maxMem` or empties the
index, in which case the exact per-entry refunds drive `used` to at most 0
(given that `used` was bounded by the total entry size). -/
theorem evictLoop_bound (maxMem needed : Int) :
    ∀ (fuel : Nat) (idx : Index) (used : Int) (ev : Nat),
      idx.entries.length < fuel →
      used ≤ idx.sumSizes →
      idx.lru.Perm (idx.entries.map (fun x => x.key)) →
      (evictLoop idx used maxMem ev needed fuel).2.1 + needed ≤ maxMem ∨
      (evictLoop idx used maxMem ev needed fuel).2.1 ≤ 0 := by
  intro fuel
  induction fuel with
  | zero => intro idx used ev hlen; omega
  | succ f ih =>
    intro idx used ev hlen hused hperm
    unfold evictLoop
    by_cases hcond : used + needed > maxMem
    · rw [if_pos hcond]
      rcases hold : idx.getOldest with _ | oldest
      · right
        have hnil := Index.getOldest_none hperm hold
        have hz := Index.sumSizes_of_nil hnil
        show used ≤ 0
        omega
      · have hget := Index.getOldest_get hold
        have hlen2 := Index.delete_length hget
        have hsum := Index.delete_sumSizes hget
        have hperm2 := Index.delete_perm hget hperm
        exact ih (idx.delete oldest.key).2 (used - entrySize oldest) (ev + 1)
          (by omega) (by omega) hperm2
    · rw [if_neg hcond]
      left
      show used + needed ≤ maxMem
      omega

theorem Worker.evictLRU_bound (w : Worker) (needed : Int)
    (hused : w.usedMemory ≤ w.index.sumSizes)
    (hperm : w.index.lru.Perm (w.index.entries.map (fun x => x.key)))
    (hmax : w.maxMemory ≠ 0) :
    (w.evictLRU needed).usedMemory + needed ≤ w.maxMemory ∨
    (w.evictLRU needed).usedMemory ≤ 0 := by
  unfold Worker.evictLRU
  rw [if_neg hmax]
  exact evictLoop_bound w.maxMemory needed (w.index.entries.length + 1)
    w.index w.usedMemory w.evictions (by omega) hused hperm

/-- After doSet, either the budget is disabled, or the counter is within
budget, or the written entry alone exceeds the budget, or the write did not
grow the counter. -/
theorem Worker.doSet_budget (w : Worker) (now : Int) (key value : String) (ttl : Int)
    (ec : Nat) (cc : Bool)
    (hused : w.usedMemory ≤ w.index.sumSizes)
    (hperm : w.index.lru.Perm (w.index.entries.map (fun x => x.key)))
    (hmax : 0 ≤ w.maxMemory) :
    w.maxMemory = 0 ∨
    (w.doSet now key value ttl ec cc).1.usedMemory ≤ w.maxMemory ∨
    ((key.length : Int) + value.length > w.maxMemory) ∨
    (w.doSet now key value ttl ec cc).1.usedMemory ≤ w.usedMemory := by
  have hold0 : (0 : Int) ≤ (match w.index.get key with
      | some ex => entrySize ex
      | none => 0) := by
    rcases w.index.get key with _ | ex
    · simp
    · simpa using entrySize_nonneg ex
  unfold Worker.doSet
  dsimp only
  set O : Int := (match w.index.get key with
      | some ex => entrySize ex
      | none => 0) with hO
  by_cases hguard : ((key.length : Int) + value.length - O > 0) ∧ w.maxMemory > 0
  · rw [if_pos hguard]
    rcases Worker.evictLRU_bound w ((key.length : Int) + value.length - O) hused hperm
        (by omega) with hb | hb
    · exact Or.inr (Or.inl hb)
    · by_cases hfin : (w.evictLRU ((key.length : Int) + value.length - O)).usedMemory +
          ((key.length : Int) + value.length - O) ≤ w.maxMemory
      · exact Or.inr (Or.inl hfin)
      · refine Or.inr (Or.inr (Or.inl ?_))
        omega
  · rw [if_neg hguard]
    rcases not_and_or.mp hguard with hg | hg
    · refine Or.inr (Or.inr (Or.inr ?_))
      omega
    · exact Or.inl (by omega)

theorem Worker.doAppendPrepend_budget (w : Worker) (now : Int) (key value : String)
    (b : Bool)
    (hused : w.usedMemory ≤ w.index.sumSizes)
    (hperm : w.index.lru.Perm (w.index.entries.map (fun x => x.key)))
    (hmax : 0 ≤ w.maxMemory) :
    ((w.doAppendPrepend now key value b).2.err = none ∨
     (w.doAppendPrepend now key value b).2.err = some .errKeyNotFound) ∧
    (w.maxMemory = 0 ∨
     (w.doAppendPrepend now key value b).1.usedMemory ≤ w.maxMemory ∨
     (∃ e, w.index.get key = some e ∧
        (key.length : Int) + e.value.length + value.length > w.maxMemory) ∨
     (w.doAppendPrepend now key value b).1.usedMemory ≤ w.usedMemory) := by
  unfold Worker.doAppendPrepend
  rcases hg : w.index.get key with _ | e
  · exact ⟨Or.inr rfl, Or.inr (Or.inr (Or.inr le_rfl))⟩
  · by_cases hexp : e.expiry > 0 ∧ e.expiry ≤ now
    · dsimp only
      rw [if_pos hexp]
      exact ⟨Or.inr rfl, Or.inr (Or.inr (Or.inr le_rfl))⟩
    · dsimp only
      rw [if_neg hexp]
      dsimp only
      constructor
      · left; rfl
      · by_cases hguard : w.maxMemory > 0 ∧ ((value.length : Int) > 0)
        · rw [if_pos hguard]
          rcases Worker.evictLRU_bound w (value.length : Int) hused hperm
              (by omega) with hb | hb
          · exact Or.inr (Or.inl hb)
          · by_cases hfin : (w.evictLRU (value.length : Int)).usedMemory +
                (value.length : Int) ≤ w.maxMemory
            · exact Or.inr (Or.inl hfin)
            · refine Or.inr (Or.inr (Or.inl ⟨e, rfl, ?_⟩))
              omega
        · rw [if_neg hguard]
          rcases not_and_or.mp hguard with hgd | hgd
          · exact Or.inl (by omega)
          · refine Or.inr (Or.inr (Or.inr ?_))
            omega

/-- C4 counterexample: with max_bytes = 8 and entries a→"9999", b→"99"
filling the budget exactly (used = 8), Incr a 1 grows the value to "10000"
without evicting: used_bytes becomes 9 > 8 = max_bytes even though every
single entry (sizes 6 and 3) fits the budget, refuting the claim's "sole
exception". -/
theorem incr_exceeds_budget :
    (runTrace (NewWorker 0 8 0) incrBudgetTrace).2.usedMemory = 9 ∧
    (runTrace (NewWorker 0 8 0) incrBudgetTrace).2.maxMemory = 8 ∧
    (runTrace (NewWorker 0 8 0) incrBudgetTrace).1.map Response.err =
      [none, none, none] ∧
    ((runTrace (NewWorker 0 8 0) incrBudgetTrace).2.index.entries.all
      (fun e => decide (entrySize e ≤ 8))) = true := by
  refine ⟨by decide, by decide, by decide, by decide⟩

/-- C4 (amended): after a successful Set/Add/Replace/Cas/Append/Prepend,
either max_bytes is 0, or used_bytes ≤ max_bytes, or the written entry alone
exceeds the budget, or the write did not grow used_bytes; the write never
fails because of the budget. Incr/Decr (and Touch) perform no eviction and
are exempt — they may leave used_bytes above max_bytes (see the
counterexample). Hypotheses: the shard satisfies the accounting bound
used ≤ Σsizes, its LRU list matches its entries, and max_bytes ≥ 0. -/
theorem write_budget (w : Worker) (now : Int) (key value : String) (ttl : Int)
    (tok : Nat)
    (hused : w.usedMemory ≤ w.index.sumSizes)
    (hperm : w.index.lru.Perm (w.index.entries.map (fun x => x.key)))
    (hmax : 0 ≤ w.maxMemory) :
    WriteBudgetBound w now key value ttl tok := by
  refine ⟨⟨Worker.doSet_err _ _ _ _ _ _ _,
      Worker.doSet_budget w now key value ttl 0 false hused hperm hmax⟩,
    fun b => Worker.doAppendPrepend_budget w now key value b hused hperm hmax,
    ?_, ?_, ?_⟩
  · exact (Worker.handleAdd_cases w now key value ttl).imp id (fun h => by rw [h])
  · exact (Worker.handleReplace_cases w now key value ttl).imp id (fun h => by rw [h])
  · rcases Worker.handleCas_cases w now key value ttl tok with h | h | h
    · exact Or.inl h
    · exact Or.inr (by rw [h])
    · exact Or.inr (by rw [h])

/-- Witness for C4 at a concrete one-entry worker. -/
theorem write_budget_witness : WriteBudgetBound casWorker 0 "k" "x" 0 99 :=
  write_budget casWorker 0 "k" "x" 0 99 (by decide) (by decide) (by decide)

/-- C2: for a present, fresh key whose stored value does not parse as an
unsigned 64-bit decimal, Increment and Decrement of the current sharded.go
fail with ErrNotNumeric and leave the cache — value, cas and expiry —
completely unchanged; handleTextIncrDecr surfaces the failure as
`CLIENT_ERROR cannot increment or decrement non-numeric value`. -/
theorem incrDecr_nonNumeric_fails (sc : OtterCache) (now : Int) (key deltaStr : String)
    (delta : Nat) (incr : Bool) (e : CacheEntry)
    (hget : sc.getIfPresent key = some e)
    (hfresh : isExpired now e = false)
    (hnn : parseUint64 e.value = none)
    (hdelta : parseUint64 deltaStr = some delta) :
    (sc.doIncrDecr now key delta incr).2.2.2 = some .errNotNumeric ∧
    (sc.doIncrDecr now key delta incr).1 = sc ∧
    (Server.handleTextIncrDecr sc now key deltaStr incr false).2 =
      "CLIENT_ERROR cannot increment or decrement non-numeric value\r\n" ∧
    (Server.handleTextIncrDecr sc now key deltaStr incr false).1 = sc := by
  have hdo : sc.doIncrDecr now key delta incr = (sc, 0, 0, some .errNotNumeric) := by
    unfold OtterCache.doIncrDecr
    simp [hget, hfresh, hnn]
  refine ⟨by rw [hdo], by rw [hdo], ?_, ?_⟩
  · unfold Server.handleTextIncrDecr
    simp only [hdelta, hdo]
    rfl
  · unfold Server.handleTextIncrDecr
    simp only [hdelta, hdo]

/-- Witness for C2: the non-numeric value "abc" under key "k". -/
theorem incrDecr_nonNumeric_fails_witness :
    (nonNumericCache.doIncrDecr 0 "k" 1 true).2.2.2 = some .errNotNumeric ∧
    (nonNumericCache.doIncrDecr 0 "k" 1 true).1 = nonNumericCache ∧
    (Server.handleTextIncrDecr nonNumericCache 0 "k" "1" true false).2 =
      "CLIENT_ERROR cannot increment or decrement non-numeric value\r\n" ∧
    (Server.handleTextIncrDecr nonNumericCache 0 "k" "1" true false).1 = nonNumericCache :=
  incrDecr_nonNumeric_fails nonNumericCache 0 "k" "1" 1 true
    { value := "abc", cas := 9, expiry := 0 }
    (by decide) (by decide) (by decide) (by decide)

/-- C5 counterexample: on a hard-expired key (expiry 5, now 10), Replace
reports NotFound but — contrary to the claim — does not remove the entry and
does not refund its memory: the worker is exactly unchanged and still holds
the key. -/
theorem replace_expired_leaves_entry :
    (expiredWorker.handleReplace 10 "k" "x" 0).2.err = some .errKeyNotFound ∧
    (expiredWorker.handleReplace 10 "k" "x" 0).1 = expiredWorker ∧
    ((expiredWorker.handleReplace 10 "k" "x" 0).1.index.get "k").isSome = true := by
  refine ⟨by decide, by decide, by decide⟩

/-- C5 (amended): hard-expired keys are reported NotFound by
Get/Incr/Decr/Append/Prepend/Touch/Cas/Replace, but only Get additionally
removes the entry and refunds its memory; the other seven leave the worker
unchanged (the entry stays until the background sweep); Add treats the key
as absent and succeeds, replacing the expired entry. -/
theorem hardExpired_semantics (w : Worker) (now : Int) (key v2 : String) (ttl : Int)
    (tok delta : Nat) (e : IndexEntry)
    (hget : w.index.get key = some e)
    (hpos : 0 < e.expiry) (hle : e.expiry ≤ now) :
    HardExpiredBehavior w now key v2 ttl tok delta e := by
  have hcond : e.expiry > 0 ∧ e.expiry ≤ now := ⟨hpos, hle⟩
  refine ⟨?_, ?_, ?_⟩
  · unfold Worker.handleGet
    simp [hget, hcond]
  · unfold Worker.handleReplace Worker.handleCas Worker.handleTouch
      Worker.doIncrDecr Worker.doAppendPrepend
    simp [hget, hcond]
  · unfold Worker.handleAdd
    simp only [hget]
    have hne : ¬(e.expiry = 0 ∨ e.expiry > now) := by
      rintro (h | h) <;> omega
    rw [if_neg hne]
    refine ⟨Worker.doSet_err _ _ _ _ _ _ _, ?_⟩
    obtain ⟨en, hen, _, hv⟩ := Worker.doSet_get_self w now key v2 ttl 0 false
    rw [hen]
    simp [hv]

/-- Witness for C5 at the concrete expired worker (expiry 5, now 10). -/
theorem hardExpired_semantics_witness :
    HardExpiredBehavior expiredWorker 10 "k" "x" 0 1 1
      { key := "k", value := "v", expiry := 5, cas := 1 } :=
  hardExpired_semantics expiredWorker 10 "k" "x" 0 1 1
    { key := "k", value := "v", expiry := 5, cas := 1 }
    (by decide) (by decide) (by decide)

/-- C7 counterexample: Incr at the stored value 2^64−1 with delta 1 stores
"0" — the uint64 sum wraps around — whereas the claim requires
min(2^64−1, old+delta) = 2^64−1 ≠ 0. -/
theorem incr_wraps :
    (maxUintWorker.doIncrDecr 0 "k" 1 true).2.value = some "0" ∧
    parseUint64 "18446744073709551615" = some (2 ^ 64 - 1) ∧
    min (2 ^ 64 - 1) (2 ^ 64 - 1 + 1) ≠ (0 : Nat) := by
  refine ⟨by decide, by decide, by decide⟩

/-- C7 (amended): for a present, fresh key whose value parses as uint64
`old`, Incr stores the decimal of (old + delta) mod 2^64 (wrap-around, not
saturation) and Decr stores old − delta floored at 0 (Nat subtraction); in
both cases the expiry is preserved, a fresh cas (counter + 1) is minted, and
the response carries the new value and that cas. -/
theorem incrDecr_arith (w : Worker) (now : Int) (key : String) (delta old : Nat)
    (e : IndexEntry) (b : Bool)
    (hget : w.index.get key = some e)
    (hfresh : ¬(e.expiry > 0 ∧ e.expiry ≤ now))
    (hold : parseUint64 e.value = some old) :
    (w.doIncrDecr now key delta b).2 =
      { value := some (formatUint (if b then (old + delta) % 2 ^ 64 else old - delta)),
        cas := (w.casCounter + 1) % 2 ^ 64, err := none } ∧
    (w.doIncrDecr now key delta b).1.index.get key =
      some { key := key,
             value := formatUint (if b then (old + delta) % 2 ^ 64 else old - delta),
             expiry := e.expiry, cas := (w.casCounter + 1) % 2 ^ 64 } ∧
    (w.doIncrDecr now key delta b).1.casCounter = (w.casCounter + 1) % 2 ^ 64 := by
  have hk : e.key = key := Index.get_key hget
  have harith : (if delta > old then 0 else old - delta) = old - delta := by
    by_cases hd : delta > old
    · rw [if_pos hd, (Nat.sub_eq_zero_of_le hd.le).symm]
    · rw [if_neg hd]
  unfold Worker.doIncrDecr
  simp only [hget, if_neg hfresh, hold, Option.getD_some, harith]
  refine ⟨trivial, ?_, trivial⟩
  rw [Index.get_touch]
  rw [hk]
  have hsetf := Index.get_set_self w.index
    { e with value := formatUint (if b then (old + delta) % 2 ^ 64 else old - delta),
             cas := (w.casCounter + 1) % 2 ^ 64 }
  simp only [hk] at hsetf
  exact hsetf

/-- Witness for C7: incr 3 and decr 3 on the stored value "10". -/
theorem incrDecr_arith_witness :
    ((numericWorker.doIncrDecr 0 "k" 3 true).2 =
      { value := some (formatUint ((10 + 3) % 2 ^ 64)), cas := (5 + 1) % 2 ^ 64,
        err := none } ∧
     (numericWorker.doIncrDecr 0 "k" 3 true).1.index.get "k" =
      some { key := "k", value := formatUint ((10 + 3) % 2 ^ 64), expiry := 0,
             cas := (5 + 1) % 2 ^ 64 } ∧
     (numericWorker.doIncrDecr 0 "k" 3 true).1.casCounter = (5 + 1) % 2 ^ 64) ∧
    ((numericWorker.doIncrDecr 0 "k" 3 false).2 =
      { value := some (formatUint (10 - 3)), cas := (5 + 1) % 2 ^ 64, err := none }) := by
  constructor
  · have h := incrDecr_arith numericWorker 0 "k" 3 10
      { key := "k", value := "10", expiry := 0, cas := 3 } true
      (by decide) (by decide) (by decide)
    simpa using h
  · have h := incrDecr_arith numericWorker 0 "k" 3 10
      { key := "k", value := "10", expiry := 0, cas := 3 } false
      (by decide) (by decide) (by decide)
    simpa using h.1

/-- C10: whenever Add fails (Exists) or Replace/Cas fails (NotFound or
CasMismatch), the worker — entries with their values, cas tokens and
expiries, the usedMemory counter, the cas counter and the LRU order — is
exactly the pre-operation worker. -/
theorem failed_write_no_change (w : Worker) (now : Int) (key value : String)
    (ttl : Int) (tok : Nat) :
    (∀ er, (w.handleAdd now key value ttl).2.err = some er →
      (w.handleAdd now key value ttl).1 = w) ∧
    (∀ er, (w.handleReplace now key value ttl).2.err = some er →
      (w.handleReplace now key value ttl).1 = w) ∧
    (∀ er, (w.handleCas now key value ttl tok).2.err = some er →
      (w.handleCas now key value ttl tok).1 = w) := by
  refine ⟨?_, ?_, ?_⟩ <;> intro er herr
  · rcases Worker.handleAdd_cases w now key value ttl with h | h
    · rw [h, Worker.doSet_err] at herr
      cases herr
    · rw [h]
  · rcases Worker.handleReplace_cases w now key value ttl with h | h
    · rw [h, Worker.doSet_err] at herr
      cases herr
    · rw [h]
  · rcases Worker.handleCas_cases w now key value ttl tok with h | h | h
    · rw [h, Worker.doSet_err] at herr
      cases herr
    · rw [h]
    · rw [h]

/-- Witness for C10: a failing Add (key present and fresh) and a failing Cas
(token 99 against stored cas 7) on the concrete worker leave it unchanged. -/
theorem failed_write_no_change_witness :
    (casWorker.handleAdd 0 "k" "x" 0).2.err = some .errKeyExists ∧
    (casWorker.handleAdd 0 "k" "x" 0).1 = casWorker ∧
    (casWorker.handleCas 0 "k" "x" 0 99).2.err = some .errCasMismatch ∧
    (casWorker.handleCas 0 "k" "x" 0 99).1 = casWorker :=
  ⟨by decide,
   (failed_write_no_change casWorker 0 "k" "x" 0 99).1 .errKeyExists (by decide),
   by decide,
   (failed_write_no_change casWorker 0 "k" "x" 0 99).2.2 .errCasMismatch (by decide)⟩

/-! Helper lemmas for the cas-monotonicity theorem (C8). -/

theorem Index.mem_set (idx : Index) (e : IndexEntry) :
    ∀ x ∈ (idx.set e).entries, x = e ∨ x ∈ idx.entries := by
  unfold Index.set
  intro x hx
  by_cases h : idx.entries.any (fun y => y.key == e.key) = true
  · rw [if_pos h] at hx
    obtain ⟨y, hy, hxy⟩ := List.mem_map.mp hx
    by_cases hk : (y.key == e.key) = true
    · left
      rw [← hxy]
      exact if_pos hk
    · right
      rw [← hxy, if_neg hk]
      exact hy
  · rw [if_neg h] at hx
    rcases List.mem_append.mp hx with h1 | h1
    · right; exact h1
    · left; simpa using h1

theorem Index.delete_entries_sub (idx : Index) (k : String) :
    ∀ x ∈ (idx.delete k).2.entries, x ∈ idx.entries := by
  intro x hx
  unfold Index.delete at hx
  rcases h : idx.entries.find? (fun e => e.key == k) with _ | e
  · rw [h] at hx
    exact hx
  · rw [h] at hx
    exact (List.eraseP_sublist _).subset hx

theorem evictLoop_entries_sub (maxMem needed : Int) :
    ∀ (fuel : Nat) (idx : Index) (used : Int) (ev : Nat),
      ∀ x ∈ (evictLoop idx used maxMem ev needed fuel).1.entries, x ∈ idx.entries := by
  intro fuel
  induction fuel with
  | zero => intro idx used ev x hx; exact hx
  | succ f ih =>
    intro idx used ev x hx
    unfold evictLoop at hx
    by_cases hcond : used + needed > maxMem
    · rw [if_pos hcond] at hx
      rcases hold : idx.getOldest with _ | oldest
      · rw [hold] at hx; exact hx
      · rw [hold] at hx
        have hx2 := ih (idx.delete oldest.key).2 (used - entrySize oldest) (ev + 1) x hx
        exact Index.delete_entries_sub idx oldest.key x hx2
    · rw [if_neg hcond] at hx; exact hx

theorem Worker.evictLRU_casCounter (w : Worker) (n : Int) :
    (w.evictLRU n).casCounter = w.casCounter := by
  unfold Worker.evictLRU
  split <;> rfl

theorem Worker.evictLRU_entries_sub (w : Worker) (n : Int) :
    ∀ x ∈ (w.evictLRU n).index.entries, x ∈ w.index.entries := by
  unfold Worker.evictLRU
  split
  · intro x hx; exact hx
  · intro x hx
    exact evictLoop_entries_sub w.maxMemory n (w.index.entries.length + 1)
      w.index w.usedMemory w.evictions x hx

theorem Worker.preEvict_cases (w : Worker) (c : Prop) [Decidable c] (n : Int) :
    ((if c then w.evictLRU n else w).casCounter = w.casCounter) ∧
    (∀ x ∈ (if c then w.evictLRU n else w).index.entries, x ∈ w.index.entries) := by
  split
  · exact ⟨Worker.evictLRU_casCounter w n, Worker.evictLRU_entries_sub w n⟩
  · exact ⟨rfl, fun x hx => hx⟩

theorem casObs_id (w : Worker) (resp : Response) (hbound : Worker.casBound w)
    (h : resp.cas = 0) : CasObs w (w, resp) :=
  ⟨le_rfl, Nat.le_succ _, hbound, by rw [h]; exact Nat.zero_le _⟩

theorem Worker.doSet_cas (w : Worker) (now : Int) (key value : String) (ttl : Int)
    (ec : Nat) (cc : Bool)
    (hlt : w.casCounter + 1 < 2 ^ 64) (hbound : Worker.casBound w) :
    CasObs w (w.doSet now key value ttl ec cc) ∧
    CasMint w (w.doSet now key value ttl ec cc) := by
  have hmod : (w.casCounter + 1) % 2 ^ 64 = w.casCounter + 1 := Nat.mod_eq_of_lt hlt
  unfold CasObs CasMint Worker.doSet
  dsimp only
  set O : Int := (match w.index.get key with
      | some ex => entrySize ex
      | none => 0) with hO
  obtain ⟨h1, h2⟩ := Worker.preEvict_cases w
    ((key.length : Int) + value.length - O > 0 ∧ w.maxMemory > 0)
    ((key.length : Int) + value.length - O)
  constructor
  · refine ⟨?_, ?_, ?_, ?_⟩
    · simp only [h1, hmod]
      omega
    · simp only [h1, hmod]
      omega
    · intro x hx
      rcases Index.mem_set _ _ x hx with rfl | hx2
      · simp only [h1, hmod]
        omega
      · have := hbound x (h2 x hx2)
        simp only [h1, hmod]
        omega
    · simp only [h1, hmod]
      omega
  · intro _
    exact ⟨by simp only [h1, hmod], by simp only [h1, hmod]⟩

theorem Worker.doAppendPrepend_cas (w : Worker) (now : Int) (key value : String)
    (b : Bool)
    (hlt : w.casCounter + 1 < 2 ^ 64) (hbound : Worker.casBound w) :
    CasObs w (w.doAppendPrepend now key value b) ∧
    CasMint w (w.doAppendPrepend now key value b) := by
  have hmod : (w.casCounter + 1) % 2 ^ 64 = w.casCounter + 1 := Nat.mod_eq_of_lt hlt
  unfold CasObs CasMint Worker.doAppendPrepend
  rcases hg : w.index.get key with _ | e
  · exact ⟨casObs_id w _ hbound rfl, fun h => Option.noConfusion h⟩
  · by_cases hexp : e.expiry > 0 ∧ e.expiry ≤ now
    · dsimp only
      rw [if_pos hexp]
      exact ⟨casObs_id w _ hbound rfl, fun h => Option.noConfusion h⟩
    · dsimp only
      rw [if_neg hexp]
      dsimp only
      obtain ⟨h1, h2⟩ := Worker.preEvict_cases w
        (w.maxMemory > 0 ∧ ((value.length : Int) > 0)) (value.length : Int)
      constructor
      · refine ⟨?_, ?_, ?_, ?_⟩
        · simp only [h1, hmod]
          omega
        · simp only [h1, hmod]
          omega
        · intro x hx
          rw [Index.touch_entries] at hx
          rcases Index.mem_set _ _ x hx with rfl | hx2
          · simp only [h1, hmod]
            omega
          · have := hbound x (h2 x hx2)
            simp only [h1, hmod]
            omega
        · simp only [h1, hmod]
          omega
      · intro _
        exact ⟨by simp only [h1, hmod], by simp only [h1, hmod]⟩

theorem Worker.doIncrDecr_cas (w : Worker) (now : Int) (key : String) (delta : Nat)
    (b : Bool)
    (hlt : w.casCounter + 1 < 2 ^ 64) (hbound : Worker.casBound w) :
    CasObs w (w.doIncrDecr now key delta b) ∧
    CasMint w (w.doIncrDecr now key delta b) := by
  have hmod : (w.casCounter + 1) % 2 ^ 64 = w.casCounter + 1 := Nat.mod_eq_of_lt hlt
  unfold CasObs CasMint Worker.doIncrDecr
  rcases hg : w.index.get key with _ | e
  · exact ⟨casObs_id w _ hbound rfl, fun h => Option.noConfusion h⟩
  · by_cases hexp : e.expiry > 0 ∧ e.expiry ≤ now
    · dsimp only
      rw [if_pos hexp]
      exact ⟨casObs_id w _ hbound rfl, fun h => Option.noConfusion h⟩
    · dsimp only
      rw [if_neg hexp]
      dsimp only
      constructor
      · refine ⟨?_, ?_, ?_, ?_⟩
        · simp only [hmod]
          omega
        · simp only [hmod]
          omega
        · intro x hx
          rw [Index.touch_entries] at hx
          rcases Index.mem_set _ _ x hx with rfl | hx2
          · simp only [hmod]
            omega
          · have := hbound x hx2
            simp only [hmod]
            omega
        · simp only [hmod]
          omega
      · intro _
        exact ⟨by simp only [hmod], by simp only [hmod]⟩

theorem Worker.handleTouch_cas (w : Worker) (now : Int) (key : String) (ttl : Int)
    (hlt : w.casCounter + 1 < 2 ^ 64) (hbound : Worker.casBound w) :
    CasObs w (w.handleTouch now key ttl) ∧
    CasMint w (w.handleTouch now key ttl) := by
  have hmod : (w.casCounter + 1) % 2 ^ 64 = w.casCounter + 1 := Nat.mod_eq_of_lt hlt
  unfold CasObs CasMint Worker.handleTouch
  rcases hg : w.index.get key with _ | e
  · exact ⟨casObs_id w _ hbound rfl, fun h => Option.noConfusion h⟩
  · by_cases hexp : e.expiry > 0 ∧ e.expiry ≤ now
    · dsimp only
      rw [if_pos hexp]
      exact ⟨casObs_id w _ hbound rfl, fun h => Option.noConfusion h⟩
    · dsimp only
      rw [if_neg hexp]
      dsimp only
      constructor
      · refine ⟨?_, ?_, ?_, ?_⟩
        · simp only [hmod]
          omega
        · simp only [hmod]
          omega
        · intro x hx
          rw [Index.touch_entries] at hx
          rcases Index.mem_set _ _ x hx with rfl | hx2
          · simp only [hmod]
            omega
          · have := hbound x hx2
            simp only [hmod]
            omega
        · simp only [hmod]
          omega
      · intro _
        exact ⟨by simp only [hmod], by simp only [hmod]⟩

theorem Worker.handleGet_cas (w : Worker) (now : Int) (key : String)
    (hbound : Worker.casBound w) : CasObs w (w.handleGet now key) := by
  unfold CasObs Worker.handleGet
  rcases hg : w.index.get key with _ | e
  · exact casObs_id w _ hbound rfl
  · by_cases hexp : e.expiry > 0 ∧ e.expiry ≤ now
    · dsimp only
      rw [if_pos hexp]
      refine ⟨le_rfl, Nat.le_succ _, ?_, Nat.zero_le _⟩
      intro x hx
      exact hbound x (Index.delete_entries_sub w.index key x hx)
    · dsimp only
      rw [if_neg hexp]
      refine ⟨le_rfl, Nat.le_succ _, ?_, ?_⟩
      · intro x hx
        rw [Index.touch_entries] at hx
        exact hbound x hx
      · exact hbound e (Index.get_mem hg)

theorem Worker.handleDelete_cas (w : Worker) (key : String)
    (hbound : Worker.casBound w) : CasObs w (w.handleDelete key) := by
  unfold CasObs Worker.handleDelete
  rcases hd : w.index.delete key with ⟨_ | e, idx⟩
  · exact casObs_id w _ hbound rfl
  · refine ⟨le_rfl, Nat.le_succ _, ?_, Nat.zero_le _⟩
    intro x hx
    have hidx : idx = (w.index.delete key).2 := by rw [hd]
    rw [hidx] at hx
    exact hbound x (Index.delete_entries_sub w.index key x hx)

theorem Worker.handleFlushAll_cas (w : Worker) : CasObs w w.handleFlushAll := by
  refine ⟨le_rfl, Nat.le_succ _, ?_, Nat.zero_le _⟩
  intro x hx
  cases hx

/-- One dispatched request observes the cas contract; a mutating request
additionally mints counter + 1 on success. -/
theorem Worker.step_cas (w : Worker) (now : Int) (r : Req)
    (hlt : w.casCounter + 1 < 2 ^ 64) (hbound : Worker.casBound w) :
    CasObs w (w.step now r) ∧
    (r.isMutation = true → CasMint w (w.step now r)) := by
  cases r with
  | get key => exact ⟨Worker.handleGet_cas w now key hbound, fun h => by cases h⟩
  | set key value ttl =>
    obtain ⟨h1, h2⟩ := Worker.doSet_cas w now key value ttl 0 false hlt hbound
    exact ⟨h1, fun _ => h2⟩
  | add key value ttl =>
    have hs : w.step now (.add key value ttl) = w.handleAdd now key value ttl := rfl
    rcases Worker.handleAdd_cases w now key value ttl with h | h
    · rw [hs, h]
      obtain ⟨h1, h2⟩ := Worker.doSet_cas w now key value ttl 0 false hlt hbound
      exact ⟨h1, fun _ => h2⟩
    · rw [hs, h]
      exact ⟨casObs_id w _ hbound rfl, fun _ he => Option.noConfusion he⟩
  | replace key value ttl =>
    have hs : w.step now (.replace key value ttl) = w.handleReplace now key value ttl := rfl
    rcases Worker.handleReplace_cases w now key value ttl with h | h
    · rw [hs, h]
      obtain ⟨h1, h2⟩ := Worker.doSet_cas w now key value ttl 0 false hlt hbound
      exact ⟨h1, fun _ => h2⟩
    · rw [hs, h]
      exact ⟨casObs_id w _ hbound rfl, fun _ he => Option.noConfusion he⟩
  | cas key value ttl tok =>
    have hs : w.step now (.cas key value ttl tok) = w.handleCas now key value ttl tok := rfl
    rcases Worker.handleCas_cases w now key value ttl tok with h | h | h
    · rw [hs, h]
      obtain ⟨h1, h2⟩ := Worker.doSet_cas w now key value ttl tok true hlt hbound
      exact ⟨h1, fun _ => h2⟩
    · rw [hs, h]
      exact ⟨casObs_id w _ hbound rfl, fun _ he => Option.noConfusion he⟩
    · rw [hs, h]
      exact ⟨casObs_id w _ hbound rfl, fun _ he => Option.noConfusion he⟩
  | delete key => exact ⟨Worker.handleDelete_cas w key hbound, fun h => by cases h⟩
  | touch key ttl =>
    obtain ⟨h1, h2⟩ := Worker.handleTouch_cas w now key ttl hlt hbound
    exact ⟨h1, fun _ => h2⟩
  | incr key delta =>
    obtain ⟨h1, h2⟩ := Worker.doIncrDecr_cas w now key delta true hlt hbound
    exact ⟨h1, fun _ => h2⟩
  | decr key delta =>
    obtain ⟨h1, h2⟩ := Worker.doIncrDecr_cas w now key delta false hlt hbound
    exact ⟨h1, fun _ => h2⟩
  | append key value =>
    obtain ⟨h1, h2⟩ := Worker.doAppendPrepend_cas w now key value false hlt hbound
    exact ⟨h1, fun _ => h2⟩
  | prepend key value =>
    obtain ⟨h1, h2⟩ := Worker.doAppendPrepend_cas w now key value true hlt hbound
    exact ⟨h1, fun _ => h2⟩
  | flushAll => exact ⟨Worker.handleFlushAll_cas w, fun h => by cases h⟩

/-- A successful mutating request anywhere in a trace reports a cas strictly
above the worker's initial counter: the counter never decreases, and the
mutation returns counter + 1. -/
theorem runTrace_mut_gt :
    ∀ (tr : List (Int × Req)) (w : Worker), Worker.casBound w →
      w.casCounter + tr.length < 2 ^ 64 →
      ∀ j rj respj, tr.get? j = some rj →
        (runTrace w tr).1.get? j = some respj →
        rj.2.isMutation = true → respj.err = none →
        w.casCounter < respj.cas := by
  intro tr
  induction tr with
  | nil =>
    intro w _ _ j rj respj hj
    simp at hj
  | cons hd rest ih =>
    obtain ⟨n0, r0⟩ := hd
    intro w hbound hlt j rj respj hj hresp hmut herr
    have hlen : (((n0, r0) :: rest) : List (Int × Req)).length = rest.length + 1 := rfl
    rw [hlen] at hlt
    have hlt1 : w.casCounter + 1 < 2 ^ 64 := by omega
    obtain ⟨hobs, hmint⟩ := Worker.step_cas w n0 r0 hlt1 hbound
    cases j with
    | zero =>
      have hrj : rj = (n0, r0) := by
        have := hj
        simp only [List.get?_cons_zero] at this
        exact (Option.some.inj this).symm
      have hrespj : respj = (w.step n0 r0).2 := by
        have := hresp
        simp only [runTrace, List.get?_cons_zero] at this
        exact (Option.some.inj this).symm
      subst hrj
      rw [hrespj] at herr ⊢
      have h2 := (hmint hmut) herr
      rw [h2.1]
      omega
    | succ j' =>
      have hj' : rest.get? j' = some rj := by simpa using hj
      have hresp' : (runTrace (w.step n0 r0).1 rest).1.get? j' = some respj := by
        have := hresp
        simp only [runTrace, List.get?_cons_succ] at this
        exact this
      have hstep := ih (w.step n0 r0).1 hobs.2.2.1
        (by have := hobs.2.1; omega) j' rj respj hj' hresp' hmut herr
      have := hobs.1
      omega

/-- Along any trace, a successful mutation's cas is strictly greater than
the cas of every earlier successful response (every observed cas is bounded
by the counter, which only grows, and the mutation mints counter + 1). -/
theorem runTrace_obs_lt :
    ∀ (tr : List (Int × Req)) (w : Worker), Worker.casBound w →
      w.casCounter + tr.length < 2 ^ 64 →
      ∀ i j ri rj respi respj, i < j →
        tr.get? i = some ri → tr.get? j = some rj →
        rj.2.isMutation = true →
        (runTrace w tr).1.get? i = some respi →
        (runTrace w tr).1.get? j = some respj →
        respi.err = none → respj.err = none →
        respi.cas < respj.cas := by
  intro tr
  induction tr with
  | nil =>
    intro w _ _ i j ri rj respi respj hij hi
    simp at hi
  | cons hd rest ih =>
    obtain ⟨n0, r0⟩ := hd
    intro w hbound hlt i j ri rj respi respj hij hi hj hmut hri hrj hei hej
    have hlen : (((n0, r0) :: rest) : List (Int × Req)).length = rest.length + 1 := rfl
    rw [hlen] at hlt
    have hlt1 : w.casCounter + 1 < 2 ^ 64 := by omega
    obtain ⟨hobs, _⟩ := Worker.step_cas w n0 r0 hlt1 hbound
    cases i with
    | zero =>
      cases j with
      | zero => omega
      | succ j' =>
        have hrespi : respi = (w.step n0 r0).2 := by
          have := hri
          simp only [runTrace, List.get?_cons_zero] at this
          exact (Option.some.inj this).symm
        have hj' : rest.get? j' = some rj := by simpa using hj
        have hrj' : (runTrace (w.step n0 r0).1 rest).1.get? j' = some respj := by
          have := hrj
          simp only [runTrace, List.get?_cons_succ] at this
          exact this
        have hgt := runTrace_mut_gt rest (w.step n0 r0).1 hobs.2.2.1
          (by have := hobs.2.1; omega) j' rj respj hj' hrj' hmut hej
        have hle : respi.cas ≤ (w.step n0 r0).1.casCounter := by
          rw [hrespi]
          exact hobs.2.2.2
        omega
    | succ i' =>
      cases j with
      | zero => omega
      | succ j' =>
        have hi' : rest.get? i' = some ri := by simpa using hi
        have hj' : rest.get? j' = some rj := by simpa using hj
        have hri' : (runTrace (w.step n0 r0).1 rest).1.get? i' = some respi := by
          have := hri
          simp only [runTrace, List.get?_cons_succ] at this
          exact this
        have hrj' : (runTrace (w.step n0 r0).1 rest).1.get? j' = some respj := by
          have := hrj
          simp only [runTrace, List.get?_cons_succ] at this
          exact this
        exact ih (w.step n0 r0).1 hobs.2.2.1
          (by have := hobs.2.1; omega) i' j' ri rj respi respj
          (by omega) hi' hj' hmut hri' hrj' hei hej

/-- C8 counterexample: the cas counter is a Go uint64 and wraps: seeded at
2^64 − 2, two Sets of the same key both succeed and return cas 2^64 − 1 and
then cas 0 — the later mutation's cas is NOT greater than the earlier one. -/
theorem cas_wraps :
    (runTrace (NewWorker 0 0 (2 ^ 64 - 2)) wrapTrace).1.map Response.cas =
      [2 ^ 64 - 1, 0] ∧
    (runTrace (NewWorker 0 0 (2 ^ 64 - 2)) wrapTrace).1.map Response.err =
      [none, none] ∧
    ¬((2 : Nat) ^ 64 - 1 < 0) := by
  refine ⟨by decide, by decide, by decide⟩

/-- C8 (amended): starting from a freshly seeded worker, as long as the
64-bit cas counter does not wrap (seed + number of requests < 2^64), the cas
returned by every successful mutation (Set/Add/Replace/Cas/Touch/Incr/Decr/
Append/Prepend) on a key is strictly greater than every cas previously
observed for that key — by any earlier successful request, Get included. -/
theorem cas_strictly_increasing (dttl mm : Int) (seed : Nat)
    (tr : List (Int × Req))
    (hwrap : seed + tr.length < 2 ^ 64)
    (i j : Nat) (ri rj : Int × Req) (respi respj : Response) (k : String)
    (hij : i < j)
    (hi : tr.get? i = some ri) (hj : tr.get? j = some rj)
    (hki : ri.2.key? = some k) (hkj : rj.2.key? = some k)
    (hmut : rj.2.isMutation = true)
    (hri : (runTrace (NewWorker dttl mm seed) tr).1.get? i = some respi)
    (hrj : (runTrace (NewWorker dttl mm seed) tr).1.get? j = some respj)
    (hei : respi.err = none) (hej : respj.err = none) :
    respi.cas < respj.cas :=
  runTrace_obs_lt tr (NewWorker dttl mm seed)
    (by intro e he; exact absurd he (List.not_mem_nil e))
    hwrap i j ri rj respi respj hij hi hj hmut hri hrj hei hej

/-- Witness for C8: two Sets of key "k" from seed 100 return cas 101 then
cas 102, and the theorem yields 101 < 102. -/
theorem cas_strictly_increasing_witness :
    (runTrace (NewWorker 0 0 100) wrapTrace).1.get? 0 =
      some { value := none, cas := 101, err := none } ∧
    (runTrace (NewWorker 0 0 100) wrapTrace).1.get? 1 =
      some { value := none, cas := 102, err := none } ∧
    (101 : Nat) < 102 :=
  ⟨by decide, by decide,
   cas_strictly_increasing 0 0 100 wrapTrace (by decide) 0 1
     (0, .set "k" "v" 0) (0, .set "k" "w" 0)
     { value := none, cas := 101, err := none }
     { value := none, cas := 102, err := none }
     "k" (by decide) (by decide) (by decide) (by decide) (by decide) (by decide)
     (by decide) (by decide) (by decide) (by decide)⟩

end TQMemory
